import Mathlib

/-!
Verification of the Redis-backed message-queue core implemented in the blog
post `src/public/blog/semantic-search-for-docs/blog.mdx` (classes `Job` and
`Queue`, Lua scripts `add-job.lua` and `remove-job.lua`).

Shallow embedding: the per-queue Redis key space is a `QueueState` holding
the five structures the code uses under its namespace
(`jobs` hash, `waiting` list, `active` list, `succeeded` set, `failed` set).
Each Redis command sequence that the code executes atomically (one Lua
script, one `MULTI/EXEC` batch, one `BRPOPLPUSH`) is one pure function on
`QueueState`.  Serialized job payloads (`convertToJSONString`, i.e.
`JSON.stringify({data, status})`) are modelled as the structure `StoredJob`,
since JSON round-tripping through `JSON.parse` is faithful for these fields.
Lists are Lean lists with the head at Redis's left end, so `LPUSH` is cons
and `BRPOPLPUSH` pops `getLast?`.
-/

namespace MQ

/-- Type `JobStatuses` from `job.ts`: `"created" | "waiting" | "active" | "succeeded" | "failed"`. -/
inductive JobStatus where
  | created
  | waiting
  | active
  | succeeded
  | failed
deriving DecidableEq, Repr

/-- The value stored in the `jobs` hash for one id: the image of
`convertToJSONString(data, status) = JSON.stringify({data, status})`.
The generic payload `data` is kept opaque as its serialized string. -/
structure StoredJob where
  data : String
  status : JobStatus
deriving DecidableEq, Repr

/-- The in-memory `Job<T>` object: `id`, `status`, `data`
(the `config` back-reference carries no queue state and is dropped). -/
structure Job where
  id : String
  status : JobStatus
  data : String
deriving DecidableEq, Repr

/-- Constructor `new Job(ownerConfig, data, jobId)`: sets `this.id = jobId`,
`this.status = "created"`, `this.data = data`. -/
def Job.build (data : String) (jobId : String) : Job :=
  { id := jobId, status := JobStatus.created, data := data }

/-- The queue's per-namespace Redis state: the five structures the code
touches (`createQueueKey "jobs" | "waiting" | "active" | "succeeded" | "failed"`).
`jobs` is a key-unique association list (a Redis hash); `waiting` and
`active` are lists (head = Redis left end); `succeeded` and `failed` are
sets, represented as duplicate-free lists. -/
structure QueueState where
  jobs : List (String × StoredJob)
  waiting : List String
  active : List String
  succeeded : List String
  failed : List String
deriving DecidableEq, Repr

/-- The empty namespace: what a fresh queue name starts from. -/
def emptyState : QueueState :=
  { jobs := [], waiting := [], active := [], succeeded := [], failed := [] }

/-- Retention configuration from `QueueConfig` (`keepOnSuccess`, `keepOnFailure`,
both defaulting to `true` in the `Queue` constructor). -/
structure QueueConfig where
  keepOnSuccess : Bool
  keepOnFailure : Bool
deriving DecidableEq, Repr

/-! ### Redis command models -/

/-- Model of `HGET key field`: first binding of the field in the hash. -/
def hget : List (String × StoredJob) → String → Option StoredJob
  | [], _ => none
  | (k, v) :: rest, k' => if k' = k then some v else hget rest k'

/-- Model of `HSET key field value`: overwrite-or-insert the binding. -/
def hset (l : List (String × StoredJob)) (k : String) (v : StoredJob) :
    List (String × StoredJob) :=
  (k, v) :: l.filter (fun p => decide (p.1 ≠ k))

/-- Model of `HDEL key field`: drop the binding. -/
def hdel (l : List (String × StoredJob)) (k : String) : List (String × StoredJob) :=
  l.filter (fun p => decide (p.1 ≠ k))

/-- Model of `LREM key 0 value`: remove every occurrence of `value`. -/
def lrem (l : List String) (x : String) : List String :=
  l.filter (fun y => decide (y ≠ x))

/-- Model of `SADD key member`. -/
def sadd (s : List String) (x : String) : List String :=
  if x ∈ s then s else x :: s

/-- Model of `SREM key member`. -/
def srem (s : List String) (x : String) : List String :=
  s.filter (fun y => decide (y ≠ x))

/-- Model of `SISMEMBER key member`. -/
def sismember (s : List String) (x : String) : Bool :=
  decide (x ∈ s)

/-! ### The queue operations -/

/-- Script `add-job.lua`, one atomic unit:
`if redis.call("hexists", KEYS[1], jobId) == 1 then return nil end ;
redis.call("hset", KEYS[1], jobId, payload) ;
redis.call("lpush", KEYS[2], jobId) ; return jobId`. -/
def addJobScript (s : QueueState) (jobId : String) (payload : StoredJob) :
    Option String × QueueState :=
  if (hget s.jobs jobId).isSome then
    (none, s)
  else
    (some jobId,
     { s with jobs := hset s.jobs jobId payload, waiting := jobId :: s.waiting })

/-- Method `Job.save()`: evaluates `add-job.lua` with `(this.id,
convertToJSONString(this.data, this.status))`; on a non-null result sets
`this.id = resJobId` and returns it, otherwise returns null.
Result: (returned id, new store state, the job object after the call). -/
def Job.save (s : QueueState) (j : Job) : Option String × QueueState × Job :=
  let r := addJobScript s j.id ⟨j.data, j.status⟩
  match r.1 with
  | some resJobId => (some resJobId, r.2, { j with id := resJobId })
  | none => (none, r.2, j)

/-- Method `Queue.add(payload)`: `new Job<T>(this.config, payload).save()`.
The client-side id (`randomUUID()` by default) is a parameter. -/
def Queue.add (s : QueueState) (jobId : String) (payload : String) :
    Option String × QueueState :=
  let r := (Job.build payload jobId).save s
  (r.1, r.2.1)

/-- Method `Queue.getNextJob()`: `BRPOPLPUSH waiting active 0` — atomically pop the
tail of `waiting` and push it on the head of `active`.  An empty `waiting`
list blocks the real call; here it yields `none` and leaves the state. -/
def getNextJob (s : QueueState) : Option String × QueueState :=
  match s.waiting.getLast? with
  | none => (none, s)
  | some jid =>
      (some jid, { s with waiting := s.waiting.dropLast, active := jid :: s.active })

/-- Method `Job.fromData(jobId, stringifiedJobData)`: parse, then build a `Job`
with the stored `data`, set `status` from the stored record, id `jobId`. -/
def Job.fromData (jobId : String) (st : StoredJob) : Job :=
  { id := jobId, status := st.status, data := st.data }

/-- Method `Job.fromId(jobId)`: `HGET jobs jobId`; `fromData` when present, null
when absent. -/
def Job.fromId (s : QueueState) (jobId : String) : Option Job :=
  (hget s.jobs jobId).map (Job.fromData jobId)

/-- Method `Queue.finishJob(job, hasFailed)`, one `MULTI … EXEC` batch:
always `LREM active 0 job.id`; then per retention flag either
`HSET jobs job.id convertToJSONString(job.data, job.status)` plus
`SADD succeeded|failed job.id`, or `HDEL jobs job.id`.  Note the argument
`convertToJSONString(job.data, job.status)` is evaluated when the command
is queued, i.e. with the status the job object had on entry; the
assignment `job.status = "failed" | "succeeded"` happens after that and
only updates the in-memory object.  Returns `[job.status, job]` after the
assignment, and the post-`EXEC` store state. -/
def Queue.finishJob (cfg : QueueConfig) (s : QueueState) (j : Job)
    (hasFailed : Bool) : JobStatus × Job × QueueState :=
  let s1 := { s with active := lrem s.active j.id }
  if hasFailed then
    let s2 :=
      if cfg.keepOnFailure then
        { s1 with jobs := hset s1.jobs j.id ⟨j.data, j.status⟩,
                  failed := sadd s1.failed j.id }
      else
        { s1 with jobs := hdel s1.jobs j.id }
    (JobStatus.failed, { j with status := JobStatus.failed }, s2)
  else
    let s2 :=
      if cfg.keepOnSuccess then
        { s1 with jobs := hset s1.jobs j.id ⟨j.data, j.status⟩,
                  succeeded := sadd s1.succeeded j.id }
      else
        { s1 with jobs := hdel s1.jobs j.id }
    (JobStatus.succeeded, { j with status := JobStatus.succeeded }, s2)

/-- A lifecycle event as emitted by `this.emit(jobStatus, job.id)`. -/
structure Event where
  name : JobStatus
  jobId : String
deriving DecidableEq, Repr

/-- Method `Queue.executeJob(jobCreatedById)`: run the worker (its outcome is the
flag `workerFails`: `hasError` is set exactly when the worker throws), then
in the `finally` block call `finishJob` once and emit `jobStatus` with
`job.id` once.  Result: the post-bookkeeping store state and the list of
emitted events, in order. -/
def Queue.executeJob (cfg : QueueConfig) (s : QueueState) (j : Job)
    (workerFails : Bool) : QueueState × List Event :=
  let r := Queue.finishJob cfg s j workerFails
  (r.2.2, [{ name := r.1, jobId := r.2.1.id }])

/-- Script `remove-job.lua`, one atomic unit:
`if (sismember succeeded jobId + sismember failed jobId) == 0 then
lrem waiting 0 jobId ; lrem active 0 jobId end` followed by the
unconditional `srem succeeded jobId ; srem failed jobId ; hdel jobs jobId`. -/
def Queue.removeJob (s : QueueState) (jobId : String) : QueueState :=
  let s1 :=
    if sismember s.succeeded jobId || sismember s.failed jobId then s
    else { s with waiting := lrem s.waiting jobId, active := lrem s.active jobId }
  { s1 with succeeded := srem s1.succeeded jobId,
            failed := srem s1.failed jobId,
            jobs := hdel s1.jobs jobId }

/-- Method `Queue.destroy()`: `DEL` of every key under the queue's namespace
(`id`, `jobs`, `waiting`, `active`, `succeeded`, `failed`) — the whole
`QueueState` is erased. -/
def Queue.destroy (_ : QueueState) : QueueState :=
  emptyState

/-! ### Operation sequences

To reason about states reachable through the API we serialize the atomic
store operations the system performs: an admission (`Queue.add`), a dequeue
attempt (`getNextJob`'s `BRPOPLPUSH`), a completion bookkeeping batch
(`executeJob`'s `finally` block runs `finishJob` unconditionally on the
job object `jobTick` loaded with `fromId` right after the dequeue, however
much time has passed and whatever other clients did in between), and a
`removeJob` script call.  A `finish` operation therefore carries the job
object the loop holds — its dequeue-time snapshot — and always executes. -/

inductive Op where
  | add (jobId : String) (payload : String)
  | dequeue
  | finish (j : Job) (hasFailed : Bool)
  | remove (jobId : String)

/-- One atomic store operation applied to the store state.  `finish j b`
runs the `finishJob` batch for the held job object `j` unconditionally,
exactly as `executeJob`'s `finally` does — in particular it still runs
when a concurrent `removeJob` has stripped `j.id` from `active` since the
dequeue. -/
def step (cfg : QueueConfig) (s : QueueState) : Op → QueueState
  | Op.add jobId payload => (Queue.add s jobId payload).2
  | Op.dequeue => (getNextJob s).2
  | Op.finish j hasFailed => (Queue.finishJob cfg s j hasFailed).2.2
  | Op.remove jobId => Queue.removeJob s jobId

/-- Run a sequence of operations from a state. -/
def run (cfg : QueueConfig) (s : QueueState) : List Op → QueueState
  | [] => s
  | op :: rest => run cfg (step cfg s op) rest

/-- The ids one operation hands to a worker: a successful dequeue yields
its popped id, every other operation yields none. -/
def traceStep (s : QueueState) : Op → List String
  | Op.dequeue => (getNextJob s).1.toList
  | _ => []

/-- The ids handed to workers over a run, in dispatch order. -/
def runTrace (cfg : QueueConfig) (s : QueueState) : List Op → List String
  | [] => []
  | op :: rest => traceStep s op ++ runTrace cfg (step cfg s op) rest

/-- The ids the admissions of a sequence attempt, in order. -/
def addIds : List Op → List String
  | [] => []
  | Op.add jobId _ :: rest => jobId :: addIds rest
  | _ :: rest => addIds rest

/-- Whether an operation fires while its job is still checked out: a
completion batch whose job id is currently in `active` (the situation the
dispatch loop is in whenever no concurrent `removeJob` stripped the
in-flight id); every other operation is unconstrained. -/
def finishEnabled (s : QueueState) : Op → Bool
  | Op.finish j _ => decide (j.id ∈ s.active)
  | _ => true

/-- A run is safe when every completion-bookkeeping batch in it executes
while its job's id is still a member of `active`. -/
def safeRun (cfg : QueueConfig) : QueueState → List Op → Bool
  | _, [] => true
  | s, op :: rest => finishEnabled s op && safeRun cfg (step cfg s op) rest

/-! ### Concrete scenario used by the completion-bookkeeping claims

A fresh queue with both retention flags set (their defaults), one job
`"A"` with payload `"p"` admitted, dequeued, reconstructed by `fromId`,
then finished successfully — the exact path `jobTick` takes. -/

def keepAllConfig : QueueConfig :=
  { keepOnSuccess := true, keepOnFailure := true }

def stateAfterAdd : QueueState :=
  (Queue.add emptyState "A" "p").2

def stateAfterDequeue : QueueState :=
  (getNextJob stateAfterAdd).2

def stateAfterSuccess : QueueState :=
  match Job.fromId stateAfterDequeue "A" with
  | some j => (Queue.finishJob keepAllConfig stateAfterDequeue j false).2.2
  | none => stateAfterDequeue

/-- A state with job `"A"` retained as succeeded: the `jobs` hash entry and
the `succeeded` membership both present (what `finishJob` leaves with
`keepOnSuccess` after the run above). -/
def retainedState : QueueState :=
  stateAfterSuccess

/-- A state whose only trace of job `"B"` is a `waiting` entry (plus its
admission-written hash entry): `"B"` sits in no other structure. -/
def onlyWaitingState : QueueState :=
  (Queue.add emptyState "B" "p").2

/-- The structural invariant the storage obeys along every operation
sequence.  The two disjointness fields are the claimed invariant; the
remaining fields are the strengthening needed for the induction (every
pending or terminal id owns a `jobs` hash entry, pending lists are
duplicate-free, terminal ids are not pending). -/
structure Inv (s : QueueState) : Prop where
  waiting_nodup : s.waiting.Nodup
  wa_disjoint : ∀ id, id ∈ s.waiting → id ∉ s.active
  waiting_in_jobs : ∀ id, id ∈ s.waiting → (hget s.jobs id).isSome
  active_in_jobs : ∀ id, id ∈ s.active → (hget s.jobs id).isSome
  sf_disjoint : ∀ id, id ∈ s.succeeded → id ∉ s.failed
  terminal_in_jobs : ∀ id, id ∈ s.succeeded ∨ id ∈ s.failed → (hget s.jobs id).isSome
  terminal_not_pending :
    ∀ id, id ∈ s.succeeded ∨ id ∈ s.failed → id ∉ s.waiting ∧ id ∉ s.active

/-! ### Basic lemmas about the Redis command models -/

theorem hget_filter_ne (k k' : String) (h : k' ≠ k) :
    ∀ l : List (String × StoredJob),
      hget (l.filter (fun p => decide (p.1 ≠ k))) k' = hget l k' := by
  intro l
  induction l with
  | nil => rfl
  | cons p rest ih =>
    obtain ⟨a, b⟩ := p
    by_cases hak : a = k
    · subst hak
      simpa [hget, List.filter_cons, h] using ih
    · have ih' := ih
      simp only [decide_not] at ih'
      simp [hget, List.filter_cons, hak, ih']

theorem hget_filter_self (k : String) :
    ∀ l : List (String × StoredJob),
      hget (l.filter (fun p => decide (p.1 ≠ k))) k = none := by
  intro l
  induction l with
  | nil => rfl
  | cons p rest ih =>
    obtain ⟨a, b⟩ := p
    by_cases hak : a = k
    · subst hak; simpa [List.filter_cons] using ih
    · have ih' := ih
      simp only [decide_not] at ih'
      simp [hget, List.filter_cons, hak, Ne.symm hak, ih']

theorem hget_hset_self (l : List (String × StoredJob)) (k : String) (v : StoredJob) :
    hget (hset l k v) k = some v := by
  simp [hset, hget]

theorem hget_hset_ne (l : List (String × StoredJob)) (k k' : String) (v : StoredJob)
    (h : k' ≠ k) : hget (hset l k v) k' = hget l k' := by
  have hf := hget_filter_ne k k' h l
  simp only [decide_not] at hf
  simp [hset, hget, h, hf]

theorem hget_hdel_self (l : List (String × StoredJob)) (k : String) :
    hget (hdel l k) k = none :=
  hget_filter_self k l

theorem hget_hdel_ne (l : List (String × StoredJob)) (k k' : String) (h : k' ≠ k) :
    hget (hdel l k) k' = hget l k' :=
  hget_filter_ne k k' h l

theorem mem_lrem_iff (l : List String) (x y : String) :
    x ∈ lrem l y ↔ x ∈ l ∧ x ≠ y := by
  simp [lrem, List.mem_filter]

theorem mem_srem_iff (s : List String) (x y : String) :
    x ∈ srem s y ↔ x ∈ s ∧ x ≠ y := by
  simp [srem, List.mem_filter]

theorem mem_sadd_iff (s : List String) (x y : String) :
    x ∈ sadd s y ↔ x = y ∨ x ∈ s := by
  unfold sadd
  by_cases h : y ∈ s
  · simp only [if_pos h]
    constructor
    · exact Or.inr
    · rintro (rfl | hx)
      · exact h
      · exact hx
  · simp [if_neg h, List.mem_cons]

/-! ### C1: admission is an all-or-nothing de-duplication guard -/

/-- C1: for every queue state and job, if the job's id is already in the
`jobs` hash then `save()` returns null and changes nothing (the stored
payload survives, nothing reaches `waiting`); if the id is absent,
`save()` writes the hash entry and pushes the id onto `waiting` together
and returns the id, leaving every other hash entry and the remaining
structures untouched. -/
theorem save_dedup_all_or_nothing (s : QueueState) (j : Job) :
    (∀ v, hget s.jobs j.id = some v → Job.save s j = (none, s, j)) ∧
    (hget s.jobs j.id = none →
      (Job.save s j).1 = some j.id ∧
      (Job.save s j).2.1.waiting = j.id :: s.waiting ∧
      hget (Job.save s j).2.1.jobs j.id = some ⟨j.data, j.status⟩ ∧
      (∀ k, k ≠ j.id → hget (Job.save s j).2.1.jobs k = hget s.jobs k) ∧
      (Job.save s j).2.1.active = s.active ∧
      (Job.save s j).2.1.succeeded = s.succeeded ∧
      (Job.save s j).2.1.failed = s.failed) := by
  constructor
  · intro v hv
    simp [Job.save, addJobScript, hv]
  · intro h
    refine ⟨?_, ?_, ?_, ?_, ?_, ?_, ?_⟩ <;>
      simp [Job.save, addJobScript, h, hget_hset_self]
    intro k hk
    exact hget_hset_ne s.jobs j.id k _ hk

/-- Witness for C1 at concrete inputs: a duplicate admission of id `"A"`
against a state already holding `"A"` is rejected unchanged, and an
admission of `"A"` against the empty state returns `"A"`. -/
theorem save_dedup_all_or_nothing_witness :
    Job.save ⟨[("A", ⟨"p", JobStatus.created⟩)], [], [], [], []⟩ (Job.build "q" "A") =
      (none, ⟨[("A", ⟨"p", JobStatus.created⟩)], [], [], [], []⟩, Job.build "q" "A") ∧
    (Job.save emptyState (Job.build "p" "A")).1 = some "A" :=
  ⟨(save_dedup_all_or_nothing ⟨[("A", ⟨"p", JobStatus.created⟩)], [], [], [], []⟩
      (Job.build "q" "A")).1 ⟨"p", JobStatus.created⟩ (by decide),
   ((save_dedup_all_or_nothing emptyState (Job.build "p" "A")).2 (by decide)).1⟩

/-! ### C10: admission never substitutes a different id -/

/-- C10: `save()` returns either null or exactly the id it was called
with, and the job object's `id` field is unchanged by the call. -/
theorem save_id_stability (s : QueueState) (j : Job) :
    ((Job.save s j).1 = none ∨ (Job.save s j).1 = some j.id) ∧
    ((Job.save s j).2.2).id = j.id := by
  by_cases h : (hget s.jobs j.id).isSome <;>
    simp [Job.save, addJobScript, h]

/-! ### C9: destroy clears the namespace -/

/-- C9: whatever the prior state, after `destroy()` all five storage
structures are empty, and a subsequent `add()` behaves exactly as on a
freshly created empty queue. -/
theorem destroy_clears_namespace (s : QueueState) :
    (Queue.destroy s).jobs = [] ∧ (Queue.destroy s).waiting = [] ∧
    (Queue.destroy s).active = [] ∧ (Queue.destroy s).succeeded = [] ∧
    (Queue.destroy s).failed = [] ∧
    (∀ jobId payload, Queue.add (Queue.destroy s) jobId payload =
        Queue.add emptyState jobId payload) :=
  ⟨rfl, rfl, rfl, rfl, rfl, fun _ _ => rfl⟩

/-! ### C7: exactly one lifecycle event per executed job -/

/-- C7: for every executed job, `executeJob` emits exactly one event,
named `failed` when the worker raised and `succeeded` otherwise, carrying
that job's id; the event's name is the status `finishJob` returned and the
state `executeJob` yields is the post-bookkeeping state, so emission
follows the completion transaction. -/
theorem executeJob_emits_exactly_once (cfg : QueueConfig) (s : QueueState)
    (j : Job) (workerFails : Bool) :
    (Queue.executeJob cfg s j workerFails).2 =
      [{ name := if workerFails then JobStatus.failed else JobStatus.succeeded,
         jobId := j.id }] ∧
    (Queue.executeJob cfg s j workerFails).1 =
      (Queue.finishJob cfg s j workerFails).2.2 ∧
    (Queue.executeJob cfg s j workerFails).2 =
      [{ name := (Queue.finishJob cfg s j workerFails).1,
         jobId := ((Queue.finishJob cfg s j workerFails).2.1).id }] := by
  cases workerFails <;> simp [Queue.executeJob, Queue.finishJob]

/-! ### C2: the retained serialization carries a stale status

`finishJob` queues `HSET jobs job.id convertToJSONString(job.data, job.status)`
and only afterwards assigns `job.status = "succeeded"` (resp. `"failed"`):
the serialized status is the one the job object carried on entry, which for
a job reconstructed by `fromId` is the status admission stored — `created`.
The retained hash entry therefore never says `succeeded`/`failed`. -/

/-- C2 at the failing input: fresh queue with `keepOnSuccess = true`, job
`"A"` admitted, dequeued, reconstructed, worker succeeds.  Afterwards the
id is indeed a member of `succeeded`, but the retained `jobs` entry is
serialized with status `created`, not `succeeded`. -/
theorem finishJob_persists_stale_status :
    sismember stateAfterSuccess.succeeded "A" = true ∧
    hget stateAfterSuccess.jobs "A" = some ⟨"p", JobStatus.created⟩ ∧
    decide (hget stateAfterSuccess.jobs "A" =
      some ⟨"p", JobStatus.succeeded⟩) = false := by
  decide

/-! ### C3: the removal guard does not protect retained entries

`remove-job.lua` skips only the two `LREM` calls when the id is terminal;
the `SREM succeeded`, `SREM failed` and `HDEL jobs` calls run
unconditionally, so a retained succeeded job is stripped of exactly the
entries the claim says survive. -/

/-- C3 counterexample: `"A"` is retained as succeeded (member of
`succeeded` with a `jobs` hash entry), yet `removeJob "A"` deletes both
its `jobs` entry and its `succeeded` membership. -/
theorem removeJob_strips_retained_succeeded :
    sismember retainedState.succeeded "A" = true ∧
    (hget retainedState.jobs "A").isSome = true ∧
    hget (Queue.removeJob retainedState "A").jobs "A" = none ∧
    sismember (Queue.removeJob retainedState "A").succeeded "A" = false := by
  decide

/-- C3 amended: for an id in `succeeded`, `removeJob` leaves `waiting` and
`active` untouched but still removes the id's `jobs` hash entry and its
`succeeded`/`failed` membership; for an id present only in `waiting`,
`removeJob` removes it from `waiting`, `active`, and `jobs`. -/
theorem removeJob_guard_amended (s : QueueState) (jobId : String) :
    (jobId ∈ s.succeeded →
      (Queue.removeJob s jobId).waiting = s.waiting ∧
      (Queue.removeJob s jobId).active = s.active ∧
      hget (Queue.removeJob s jobId).jobs jobId = none ∧
      jobId ∉ (Queue.removeJob s jobId).succeeded ∧
      jobId ∉ (Queue.removeJob s jobId).failed) ∧
    (jobId ∈ s.waiting → jobId ∉ s.succeeded → jobId ∉ s.failed →
      jobId ∉ (Queue.removeJob s jobId).waiting ∧
      jobId ∉ (Queue.removeJob s jobId).active ∧
      hget (Queue.removeJob s jobId).jobs jobId = none) := by
  constructor
  · intro h
    have hg : (sismember s.succeeded jobId || sismember s.failed jobId) = true := by
      simp [sismember, h]
    simp [Queue.removeJob, hg, hget_hdel_self, mem_srem_iff]
  · intro hw hs hf
    have hg : (sismember s.succeeded jobId || sismember s.failed jobId) = false := by
      simp [sismember, hs, hf]
    simp [Queue.removeJob, hg, hget_hdel_self, mem_srem_iff, mem_lrem_iff]

/-- Witness for C3's amended statement: the retained-succeeded state loses
`"A"`'s entries while its lists survive, and the state holding `"B"` only
in `waiting` is fully purged of `"B"`. -/
theorem removeJob_guard_amended_witness :
    ((Queue.removeJob retainedState "A").waiting = retainedState.waiting ∧
     (Queue.removeJob retainedState "A").active = retainedState.active ∧
     hget (Queue.removeJob retainedState "A").jobs "A" = none ∧
     "A" ∉ (Queue.removeJob retainedState "A").succeeded ∧
     "A" ∉ (Queue.removeJob retainedState "A").failed) ∧
    ("B" ∉ (Queue.removeJob onlyWaitingState "B").waiting ∧
     "B" ∉ (Queue.removeJob onlyWaitingState "B").active ∧
     hget (Queue.removeJob onlyWaitingState "B").jobs "B" = none) :=
  ⟨(removeJob_guard_amended retainedState "A").1 (by decide),
   (removeJob_guard_amended onlyWaitingState "B").2 (by decide) (by decide) (by decide)⟩

/-! ### C8: the stored status never reaches `waiting`

`save()` serializes `convertToJSONString(this.data, this.status)` while
`this.status` is still `"created"` (nothing assigns `"waiting"` anywhere),
so a `fromId` performed after admission yields status `created`. -/

/-- C8 counterexample: after admitting `"A"` into an empty queue, loading
it back yields status `created`, not `waiting` as the claim requires. -/
theorem admitted_status_not_waiting :
    (Job.fromId stateAfterAdd "A").map Job.status = some JobStatus.created ∧
    decide ((Job.fromId stateAfterAdd "A").map Job.status =
      some JobStatus.waiting) = false := by
  decide

/-- C8 amended: a job is constructed with status `created`; a successful
`save()` persists the serialization with status `created` unchanged (so a
`loadById` between admission and dispatch returns the job exactly as
built, status `created`); dequeue moves the id between the two lists
without touching the `jobs` hash or the status sets; completion
bookkeeping then assigns the in-memory status `succeeded` or `failed`
directly. -/
theorem status_lifecycle_amended (s : QueueState) (jobId payload : String)
    (h : hget s.jobs jobId = none) :
    (Job.build payload jobId).status = JobStatus.created ∧
    Job.fromId ((Job.build payload jobId).save s).2.1 jobId =
      some (Job.build payload jobId) ∧
    (∀ t : QueueState, ((getNextJob t).2).jobs = t.jobs ∧
      ((getNextJob t).2).succeeded = t.succeeded ∧
      ((getNextJob t).2).failed = t.failed) ∧
    (∀ cfg t b, ((Queue.finishJob cfg t (Job.build payload jobId) b).2.1).status =
      if b then JobStatus.failed else JobStatus.succeeded) := by
  refine ⟨rfl, ?_, ?_, ?_⟩
  · simp [Job.save, addJobScript, h, Job.fromId, hget_hset_self, Job.fromData,
      Job.build]
  · intro t
    cases ht : t.waiting.getLast? <;> simp [getNextJob, ht]
  · intro cfg t b
    cases b <;> simp [Queue.finishJob]

/-- Witness for C8's amended statement at the empty state with id `"A"`,
payload `"p"`. -/
theorem status_lifecycle_amended_witness :
    (Job.build "p" "A").status = JobStatus.created ∧
    Job.fromId ((Job.build "p" "A").save emptyState).2.1 "A" =
      some (Job.build "p" "A") :=
  ⟨(status_lifecycle_amended emptyState "A" "p" rfl).1,
   (status_lifecycle_amended emptyState "A" "p" rfl).2.1⟩

/-! ### C4: FIFO dispatch order -/

theorem run_append (cfg : QueueConfig) (l1 l2 : List Op) :
    ∀ s, run cfg s (l1 ++ l2) = run cfg (run cfg s l1) l2 := by
  induction l1 with
  | nil => intro s; rfl
  | cons op rest ih => intro s; simpa [run] using ih (step cfg s op)

theorem runTrace_append (cfg : QueueConfig) (l1 l2 : List Op) :
    ∀ s, runTrace cfg s (l1 ++ l2) =
      runTrace cfg s l1 ++ runTrace cfg (run cfg s l1) l2 := by
  induction l1 with
  | nil => intro s; rfl
  | cons op rest ih =>
    intro s
    simp [runTrace, run, ih (step cfg s op)]

/-- Admissions hand nothing to a worker: their trace is empty. -/
theorem runTrace_adds (cfg : QueueConfig) (l : List (String × String)) :
    ∀ s, runTrace cfg s (l.map fun q => Op.add q.1 q.2) = [] := by
  induction l with
  | nil => intro s; rfl
  | cons q t ih =>
    intro s
    simpa [runTrace, traceStep, run] using ih (step cfg s (Op.add q.1 q.2))

/-- Admitting fresh, pairwise-distinct ids `LPUSH`es them in order: the
`waiting` list afterwards is their reverse, in front of what was there. -/
theorem run_adds_waiting (cfg : QueueConfig) :
    ∀ (l : List (String × String)) (s : QueueState),
      (∀ q ∈ l, hget s.jobs q.1 = none) → (l.map Prod.fst).Nodup →
      (run cfg s (l.map fun q => Op.add q.1 q.2)).waiting =
        (l.map Prod.fst).reverse ++ s.waiting := by
  intro l
  induction l with
  | nil => intro s _ _; rfl
  | cons q t ih =>
    intro s hfresh hnodup
    have hq : hget s.jobs q.1 = none := hfresh q (by simp)
    have hstep : step cfg s (Op.add q.1 q.2) =
        { s with jobs := hset s.jobs q.1 ⟨q.2, JobStatus.created⟩,
                 waiting := q.1 :: s.waiting } := by
      simp [step, Queue.add, Job.save, Job.build, addJobScript, hq]
    have hq_notin : q.1 ∉ t.map Prod.fst := by
      have := hnodup
      simp only [List.map_cons, List.nodup_cons] at this
      exact this.1
    have hfresh' : ∀ r ∈ t,
        hget (hset s.jobs q.1 ⟨q.2, JobStatus.created⟩) r.1 = none := by
      intro r hr
      have hne : r.1 ≠ q.1 := by
        intro he
        exact hq_notin (he ▸ List.mem_map_of_mem Prod.fst hr)
      rw [hget_hset_ne _ _ _ _ hne]
      exact hfresh r (List.mem_cons_of_mem _ hr)
    have hnodup' : (t.map Prod.fst).Nodup := by
      have := hnodup
      simp only [List.map_cons, List.nodup_cons] at this
      exact this.2
    show (run cfg (step cfg s (Op.add q.1 q.2)) (t.map fun q => Op.add q.1 q.2)).waiting = _
    rw [hstep, ih _ hfresh' hnodup']
    simp

/-- Draining a queue with `n` waiting ids pops them tail-first: the trace
is the `waiting` list reversed. -/
theorem run_drain (cfg : QueueConfig) :
    ∀ (n : Nat) (s : QueueState), s.waiting.length = n →
      runTrace cfg s (List.replicate n Op.dequeue) = s.waiting.reverse := by
  intro n
  induction n with
  | zero =>
    intro s hs
    have hnil : s.waiting = [] := List.length_eq_zero.mp hs
    simp [runTrace, hnil]
  | succ n ih =>
    intro s hs
    have hne : s.waiting ≠ [] := by
      intro he; rw [he] at hs; simp at hs
    have hlast : s.waiting.getLast? = some (s.waiting.getLast hne) :=
      List.getLast?_eq_getLast _ hne
    have hstep : step cfg s Op.dequeue =
        { s with waiting := s.waiting.dropLast,
                 active := s.waiting.getLast hne :: s.active } := by
      simp [step, getNextJob, hlast]
    have htr : traceStep s Op.dequeue = [s.waiting.getLast hne] := by
      simp [traceStep, getNextJob, hlast]
    rw [List.replicate_succ]
    show traceStep s Op.dequeue ++
        runTrace cfg (step cfg s Op.dequeue) (List.replicate n Op.dequeue) = _
    rw [htr, hstep, ih _ (by simp [List.length_dropLast, hs])]
    conv_rhs => rw [← List.dropLast_append_getLast hne]
    rw [List.reverse_append]
    simp

/-- C4: jobs admitted into an empty queue in a given order, with fresh
pairwise-distinct ids, are handed to the worker by the dequeue operation
(pop from `waiting`, push to `active`) in exactly the admission order. -/
theorem fifo_dispatch_order (cfg : QueueConfig) (l : List (String × String))
    (hnodup : (l.map Prod.fst).Nodup) :
    runTrace cfg emptyState
      ((l.map fun q => Op.add q.1 q.2) ++ List.replicate l.length Op.dequeue) =
      l.map Prod.fst := by
  rw [runTrace_append, runTrace_adds]
  have hw : (run cfg emptyState (l.map fun q => Op.add q.1 q.2)).waiting =
      (l.map Prod.fst).reverse ++ emptyState.waiting :=
    run_adds_waiting cfg l emptyState (fun q _ => rfl) hnodup
  have hlen : (run cfg emptyState (l.map fun q => Op.add q.1 q.2)).waiting.length
      = l.length := by
    rw [hw]
    simp [emptyState]
  rw [List.nil_append, run_drain cfg l.length _ hlen, hw]
  simp [emptyState]

/-- Witness for C4: three jobs `a`, `b`, `c` admitted in that order are
dispatched as `[a, b, c]`. -/
theorem fifo_dispatch_order_witness :
    runTrace keepAllConfig emptyState
      (([("a", "1"), ("b", "2"), ("c", "3")].map fun q => Op.add q.1 q.2) ++
        List.replicate ([("a", "1"), ("b", "2"), ("c", "3")] :
          List (String × String)).length Op.dequeue) = ["a", "b", "c"] :=
  fifo_dispatch_order keepAllConfig [("a", "1"), ("b", "2"), ("c", "3")]
    (by decide)

/-! ### C6: at-most-one-consumer -/

/-- A completion-bookkeeping step never touches the `waiting` list. -/
theorem finishJob_waiting (cfg : QueueConfig) (s : QueueState) (j : Job)
    (b : Bool) : ((Queue.finishJob cfg s j b).2.2).waiting = s.waiting := by
  cases b <;> simp [Queue.finishJob, apply_ite QueueState.waiting]

theorem step_finish_waiting (cfg : QueueConfig) (s : QueueState)
    (j : Job) (b : Bool) :
    (step cfg s (Op.finish j b)).waiting = s.waiting :=
  finishJob_waiting cfg s j b

/-- Removal at most removes `waiting` entries. -/
theorem removeJob_waiting_count (s : QueueState) (jobId x : String) :
    (Queue.removeJob s jobId).waiting.count x ≤ s.waiting.count x := by
  unfold Queue.removeJob
  by_cases h : (sismember s.succeeded jobId || sismember s.failed jobId) = true
  · simp [h]
  · simp only [Bool.not_eq_true] at h
    simp only [h, Bool.false_eq_true, if_false]
    exact (List.filter_sublist _).count_le x

/-- One operation cannot make an id available more often than its own
admissions allow: handed-out occurrences plus remaining `waiting`
occurrences grow by at most the operation's admissions of that id. -/
theorem step_count_bound (cfg : QueueConfig) (s : QueueState) (op : Op)
    (x : String) :
    (traceStep s op).count x + (step cfg s op).waiting.count x ≤
      s.waiting.count x + (addIds [op]).count x := by
  cases op with
  | add jobId payload =>
    simp only [traceStep, addIds, List.count_nil, Nat.zero_add]
    unfold step Queue.add Job.save Job.build addJobScript
    by_cases h : (hget s.jobs jobId).isSome
    · simp [h]
    · simp [h, List.count_cons]
  | dequeue =>
    simp only [traceStep, addIds, List.count_nil, Nat.add_zero]
    cases hl : s.waiting.getLast? with
    | none => simp [step, getNextJob, hl]
    | some a =>
      have hne : s.waiting ≠ [] := by
        intro he; rw [he] at hl; cases hl
      have ha : s.waiting.getLast hne = a := by
        rw [List.getLast?_eq_getLast _ hne] at hl
        exact Option.some_inj.mp hl
      have hsplit : s.waiting.dropLast ++ [a] = s.waiting := by
        rw [← ha]; exact List.dropLast_append_getLast hne
      simp only [step, getNextJob, hl, Option.toList_some]
      have heq : (s.waiting.dropLast ++ [a]).count x = s.waiting.count x := by
        rw [hsplit]
      rw [List.count_append] at heq
      omega
  | finish jobId b =>
    simp [traceStep, addIds, step_finish_waiting]
  | remove jobId =>
    simpa [traceStep, addIds, step] using removeJob_waiting_count s jobId x

/-- Over a whole run, an id is handed out plus left waiting at most as
often as it started waiting plus was admitted. -/
theorem runTrace_count_bound (cfg : QueueConfig) :
    ∀ (ops : List Op) (s : QueueState) (x : String),
      (runTrace cfg s ops).count x + (run cfg s ops).waiting.count x ≤
        s.waiting.count x + (addIds ops).count x := by
  intro ops
  induction ops with
  | nil => intro s x; simp [runTrace, run]
  | cons op rest ih =>
    intro s x
    have h1 := step_count_bound cfg s op x
    have h2 := ih (step cfg s op) x
    have h3 : addIds (op :: rest) = addIds [op] ++ addIds rest := by
      cases op <;> rfl
    simp only [runTrace, run, List.count_append, h3]
    omega

/-- C6: across any sequence of operations on an initially empty queue in
which no id is admitted twice, the atomic pop-and-push hands each job id
to a worker at most once — the dispatch trace has no duplicates. -/
theorem at_most_one_consumer (cfg : QueueConfig) (ops : List Op)
    (h : (addIds ops).Nodup) :
    (runTrace cfg emptyState ops).Nodup := by
  rw [List.nodup_iff_count_le_one] at h ⊢
  intro x
  have hb := runTrace_count_bound cfg ops emptyState x
  have hz : emptyState.waiting.count x = 0 := by simp [emptyState]
  have h1 := h x
  omega

/-- Witness for C6: two jobs, three dequeue attempts, a completion and a
removal — the dispatch trace `["a", "b"]` has no duplicate. -/
theorem at_most_one_consumer_witness :
    (runTrace keepAllConfig emptyState
      [Op.add "a" "1", Op.add "b" "2", Op.dequeue, Op.dequeue,
        Op.finish (Job.build "1" "a") false, Op.dequeue, Op.remove "b"]).Nodup :=
  at_most_one_consumer keepAllConfig
    [Op.add "a" "1", Op.add "b" "2", Op.dequeue, Op.dequeue,
      Op.finish (Job.build "1" "a") false, Op.dequeue, Op.remove "b"] (by decide)

/-! ### C5: mutual exclusion of `waiting`/`active` and `succeeded`/`failed` -/

theorem isSome_hget_hset (l : List (String × StoredJob)) (k k' : String)
    (v : StoredJob) (h : (hget l k').isSome) : (hget (hset l k v) k').isSome := by
  by_cases he : k' = k
  · subst he; rw [hget_hset_self]; rfl
  · rw [hget_hset_ne _ _ _ _ he]; exact h

theorem isSome_hget_hset_self (l : List (String × StoredJob)) (k : String)
    (v : StoredJob) : (hget (hset l k v) k).isSome := by
  rw [hget_hset_self]; rfl

theorem Inv.empty : Inv emptyState := by
  refine ⟨List.nodup_nil, ?_, ?_, ?_, ?_, ?_, ?_⟩ <;> intro id h <;> simp [emptyState] at h

/-- Admission preserves the invariant. -/
theorem inv_add (cfg : QueueConfig) (s : QueueState) (h : Inv s)
    (jobId payload : String) : Inv (step cfg s (Op.add jobId payload)) := by
  by_cases hj : (hget s.jobs jobId).isSome
  · have hstep : step cfg s (Op.add jobId payload) = s := by
      simp [step, Queue.add, Job.save, Job.build, addJobScript, hj]
    rwa [hstep]
  · have hjn : hget s.jobs jobId = none := by
      cases hh : hget s.jobs jobId
      · rfl
      · rw [hh] at hj; simp at hj
    have hstep : step cfg s (Op.add jobId payload) =
        { s with jobs := hset s.jobs jobId ⟨payload, JobStatus.created⟩,
                 waiting := jobId :: s.waiting } := by
      simp [step, Queue.add, Job.save, Job.build, addJobScript, hjn]
    rw [hstep]
    have hnw : jobId ∉ s.waiting := by
      intro hw
      have := h.waiting_in_jobs jobId hw
      rw [hjn] at this; simp at this
    have hna : jobId ∉ s.active := by
      intro ha
      have := h.active_in_jobs jobId ha
      rw [hjn] at this; simp at this
    have hterm : ∀ id, id ∈ s.succeeded ∨ id ∈ s.failed → id ≠ jobId := by
      intro id hid he
      have := h.terminal_in_jobs id hid
      rw [he, hjn] at this; simp at this
    refine ⟨?_, ?_, ?_, ?_, h.sf_disjoint, ?_, ?_⟩
    · exact List.nodup_cons.mpr ⟨hnw, h.waiting_nodup⟩
    · intro id hid
      rcases List.mem_cons.mp hid with rfl | hid'
      · exact hna
      · exact h.wa_disjoint id hid'
    · intro id hid
      rcases List.mem_cons.mp hid with rfl | hid'
      · exact isSome_hget_hset_self _ _ _
      · by_cases he : id = jobId
        · subst he; exact isSome_hget_hset_self _ _ _
        · rw [hget_hset_ne _ _ _ _ he]; exact h.waiting_in_jobs id hid'
    · intro id hid
      exact isSome_hget_hset _ _ _ _ (h.active_in_jobs id hid)
    · intro id hid
      exact isSome_hget_hset _ _ _ _ (h.terminal_in_jobs id hid)
    · intro id hid
      obtain ⟨hw, ha⟩ := h.terminal_not_pending id hid
      refine ⟨?_, ha⟩
      intro hmem
      rcases List.mem_cons.mp hmem with he | hid'
      · exact hterm id hid he
      · exact hw hid'

/-- The atomic pop-and-push preserves the invariant. -/
theorem inv_dequeue (cfg : QueueConfig) (s : QueueState) (h : Inv s) :
    Inv (step cfg s Op.dequeue) := by
  cases hl : s.waiting.getLast? with
  | none =>
    have hstep : step cfg s Op.dequeue = s := by simp [step, getNextJob, hl]
    rwa [hstep]
  | some a =>
    have hne : s.waiting ≠ [] := by intro he; rw [he] at hl; cases hl
    have hstep : step cfg s Op.dequeue =
        { s with waiting := s.waiting.dropLast, active := a :: s.active } := by
      simp [step, getNextJob, hl]
    rw [hstep]
    have hdl : s.waiting.dropLast ++ [a] = s.waiting := by
      have hg : s.waiting.getLast hne = a := by
        rw [List.getLast?_eq_getLast _ hne] at hl
        exact Option.some_inj.mp hl
      rw [← hg]
      exact List.dropLast_append_getLast hne
    have ha : a ∈ s.waiting := by
      rw [← hdl]; simp
    have hsub : s.waiting.dropLast.Sublist s.waiting := List.dropLast_sublist _
    have hnotin : a ∉ s.waiting.dropLast := by
      have hnd : (s.waiting.dropLast ++ [a]).Nodup := by
        rw [hdl]; exact h.waiting_nodup
      have hdisj := (List.nodup_append.mp hnd).2.2
      intro hmem
      exact hdisj hmem (by simp)
    refine ⟨?_, ?_, ?_, ?_, h.sf_disjoint, h.terminal_in_jobs, ?_⟩
    · exact h.waiting_nodup.sublist hsub
    · intro id hid hcon
      rcases List.mem_cons.mp hcon with rfl | hid'
      · exact hnotin hid
      · exact h.wa_disjoint id (hsub.subset hid) hid'
    · intro id hid
      exact h.waiting_in_jobs id (hsub.subset hid)
    · intro id hid
      rcases List.mem_cons.mp hid with rfl | hid'
      · exact h.waiting_in_jobs id ha
      · exact h.active_in_jobs id hid'
    · intro id hid
      obtain ⟨hw, hact⟩ := h.terminal_not_pending id hid
      constructor
      · intro hmem; exact hw (hsub.subset hmem)
      · intro hmem
        rcases List.mem_cons.mp hmem with rfl | hid'
        · exact hw ha
        · exact hact hid'

/-- The completion-bookkeeping batch, for a job the worker holds (its id
is in `active`), preserves the invariant. -/
theorem inv_finishJob (cfg : QueueConfig) (s : QueueState) (h : Inv s)
    (j : Job) (b : Bool) (hact : j.id ∈ s.active) :
    Inv ((Queue.finishJob cfg s j b).2.2) := by
  have hnw : j.id ∉ s.waiting := by
    intro hw; exact h.wa_disjoint j.id hw hact
  have hns : j.id ∉ s.succeeded := by
    intro hs; exact (h.terminal_not_pending j.id (Or.inl hs)).2 hact
  have hnf : j.id ∉ s.failed := by
    intro hf; exact (h.terminal_not_pending j.id (Or.inr hf)).2 hact
  have hwa : ∀ id, id ∈ s.waiting → id ∉ lrem s.active j.id := by
    intro id hid hcon
    rw [mem_lrem_iff] at hcon
    exact h.wa_disjoint id hid hcon.1
  have hwj : ∀ id, id ∈ s.waiting →
      (hget (hset s.jobs j.id ⟨j.data, j.status⟩) id).isSome := by
    intro id hid
    exact isSome_hget_hset _ _ _ _ (h.waiting_in_jobs id hid)
  have haj : ∀ id, id ∈ lrem s.active j.id →
      (hget (hset s.jobs j.id ⟨j.data, j.status⟩) id).isSome := by
    intro id hid
    rw [mem_lrem_iff] at hid
    exact isSome_hget_hset _ _ _ _ (h.active_in_jobs id hid.1)
  have hself_np : j.id ∉ s.waiting ∧ j.id ∉ lrem s.active j.id := by
    refine ⟨hnw, ?_⟩
    intro hmem
    rw [mem_lrem_iff] at hmem
    exact hmem.2 rfl
  have hold_np : ∀ id, id ∈ s.succeeded ∨ id ∈ s.failed →
      id ∉ s.waiting ∧ id ∉ lrem s.active j.id := by
    intro id hid
    obtain ⟨hw, hac⟩ := h.terminal_not_pending id hid
    refine ⟨hw, ?_⟩
    intro hmem
    rw [mem_lrem_iff] at hmem
    exact hac hmem.1
  have hkeepF : Inv { s with active := lrem s.active j.id,
                             jobs := hset s.jobs j.id ⟨j.data, j.status⟩,
                             failed := sadd s.failed j.id } := by
    refine ⟨h.waiting_nodup, hwa, hwj, haj, ?_, ?_, ?_⟩
    · intro id hid hcon
      rw [mem_sadd_iff] at hcon
      rcases hcon with rfl | hcon'
      · exact hns hid
      · exact h.sf_disjoint id hid hcon'
    · intro id hid
      by_cases he : id = j.id
      · subst he; exact isSome_hget_hset_self _ _ _
      · refine isSome_hget_hset _ _ _ _ (h.terminal_in_jobs id ?_)
        rcases hid with hid' | hid'
        · exact Or.inl hid'
        · rw [mem_sadd_iff] at hid'
          rcases hid' with rfl | hid''
          · exact absurd rfl he
          · exact Or.inr hid''
    · intro id hid
      by_cases he : id = j.id
      · subst he; exact hself_np
      · refine hold_np id ?_
        rcases hid with hid' | hid'
        · exact Or.inl hid'
        · rw [mem_sadd_iff] at hid'
          rcases hid' with rfl | hid''
          · exact absurd rfl he
          · exact Or.inr hid''
  have hkeepS : Inv { s with active := lrem s.active j.id,
                             jobs := hset s.jobs j.id ⟨j.data, j.status⟩,
                             succeeded := sadd s.succeeded j.id } := by
    refine ⟨h.waiting_nodup, hwa, hwj, haj, ?_, ?_, ?_⟩
    · intro id hid hcon
      rw [mem_sadd_iff] at hid
      rcases hid with rfl | hid'
      · exact hnf hcon
      · exact h.sf_disjoint id hid' hcon
    · intro id hid
      by_cases he : id = j.id
      · subst he; exact isSome_hget_hset_self _ _ _
      · refine isSome_hget_hset _ _ _ _ (h.terminal_in_jobs id ?_)
        rcases hid with hid' | hid'
        · rw [mem_sadd_iff] at hid'
          rcases hid' with rfl | hid''
          · exact absurd rfl he
          · exact Or.inl hid''
        · exact Or.inr hid'
    · intro id hid
      by_cases he : id = j.id
      · subst he; exact hself_np
      · refine hold_np id ?_
        rcases hid with hid' | hid'
        · rw [mem_sadd_iff] at hid'
          rcases hid' with rfl | hid''
          · exact absurd rfl he
          · exact Or.inl hid''
        · exact Or.inr hid'
  have hdrop : Inv { s with active := lrem s.active j.id,
                            jobs := hdel s.jobs j.id } := by
    have hnterm : ∀ id, id ∈ s.succeeded ∨ id ∈ s.failed → id ≠ j.id := by
      intro id hid he
      subst he
      rcases hid with hh | hh
      · exact hns hh
      · exact hnf hh
    refine ⟨h.waiting_nodup, ?_, ?_, ?_, h.sf_disjoint, ?_, ?_⟩
    · intro id hid hcon
      rw [mem_lrem_iff] at hcon
      exact h.wa_disjoint id hid hcon.1
    · intro id hid
      have hne : id ≠ j.id := by
        intro he; subst he; exact hnw hid
      rw [hget_hdel_ne _ _ _ hne]
      exact h.waiting_in_jobs id hid
    · intro id hid
      rw [mem_lrem_iff] at hid
      rw [hget_hdel_ne _ _ _ hid.2]
      exact h.active_in_jobs id hid.1
    · intro id hid
      rw [hget_hdel_ne _ _ _ (hnterm id hid)]
      exact h.terminal_in_jobs id hid
    · intro id hid
      obtain ⟨hw, hac⟩ := h.terminal_not_pending id hid
      refine ⟨hw, ?_⟩
      intro hmem
      rw [mem_lrem_iff] at hmem
      exact hac hmem.1
  cases b with
  | true =>
    by_cases hk : cfg.keepOnFailure
    · have hstep : (Queue.finishJob cfg s j true).2.2 =
          { s with active := lrem s.active j.id,
                   jobs := hset s.jobs j.id ⟨j.data, j.status⟩,
                   failed := sadd s.failed j.id } := by
        simp [Queue.finishJob, hk]
      rw [hstep]
      exact hkeepF
    · have hstep : (Queue.finishJob cfg s j true).2.2 =
          { s with active := lrem s.active j.id,
                   jobs := hdel s.jobs j.id } := by
        simp [Queue.finishJob, hk]
      rw [hstep]
      exact hdrop
  | false =>
    by_cases hk : cfg.keepOnSuccess
    · have hstep : (Queue.finishJob cfg s j false).2.2 =
          { s with active := lrem s.active j.id,
                   jobs := hset s.jobs j.id ⟨j.data, j.status⟩,
                   succeeded := sadd s.succeeded j.id } := by
        simp [Queue.finishJob, hk]
      rw [hstep]
      exact hkeepS
    · have hstep : (Queue.finishJob cfg s j false).2.2 =
          { s with active := lrem s.active j.id,
                   jobs := hdel s.jobs j.id } := by
        simp [Queue.finishJob, hk]
      rw [hstep]
      exact hdrop

/-- The removal script preserves the invariant. -/
theorem inv_remove (cfg : QueueConfig) (s : QueueState) (h : Inv s)
    (jobId : String) : Inv (step cfg s (Op.remove jobId)) := by
  show Inv (Queue.removeJob s jobId)
  by_cases hg : (sismember s.succeeded jobId || sismember s.failed jobId) = true
  · have hterm : jobId ∈ s.succeeded ∨ jobId ∈ s.failed := by
      simpa [sismember] using hg
    have hstep : Queue.removeJob s jobId =
        { s with succeeded := srem s.succeeded jobId,
                 failed := srem s.failed jobId,
                 jobs := hdel s.jobs jobId } := by
      simp [Queue.removeJob, hg]
    rw [hstep]
    obtain ⟨hnw, hna⟩ := h.terminal_not_pending jobId hterm
    refine ⟨h.waiting_nodup, h.wa_disjoint, ?_, ?_, ?_, ?_, ?_⟩
    · intro id hid
      have hne : id ≠ jobId := by
        intro he; subst he; exact hnw hid
      rw [hget_hdel_ne _ _ _ hne]
      exact h.waiting_in_jobs id hid
    · intro id hid
      have hne : id ≠ jobId := by
        intro he; subst he; exact hna hid
      rw [hget_hdel_ne _ _ _ hne]
      exact h.active_in_jobs id hid
    · intro id hid hcon
      rw [mem_srem_iff] at hid hcon
      exact h.sf_disjoint id hid.1 hcon.1
    · intro id hid
      have hid' : (id ∈ s.succeeded ∨ id ∈ s.failed) ∧ id ≠ jobId := by
        rcases hid with hh | hh <;> rw [mem_srem_iff] at hh
        · exact ⟨Or.inl hh.1, hh.2⟩
        · exact ⟨Or.inr hh.1, hh.2⟩
      rw [hget_hdel_ne _ _ _ hid'.2]
      exact h.terminal_in_jobs id hid'.1
    · intro id hid
      have hid' : id ∈ s.succeeded ∨ id ∈ s.failed := by
        rcases hid with hh | hh <;> rw [mem_srem_iff] at hh
        · exact Or.inl hh.1
        · exact Or.inr hh.1
      exact h.terminal_not_pending id hid'
  · have hns : jobId ∉ s.succeeded := by
      intro hx
      exact hg (by simp [sismember, hx])
    have hnf : jobId ∉ s.failed := by
      intro hx
      exact hg (by simp [sismember, hx])
    have hgf : (sismember s.succeeded jobId || sismember s.failed jobId) = false :=
      Bool.not_eq_true _ |>.mp hg
    have hstep : Queue.removeJob s jobId =
        { s with waiting := lrem s.waiting jobId,
                 active := lrem s.active jobId,
                 succeeded := srem s.succeeded jobId,
                 failed := srem s.failed jobId,
                 jobs := hdel s.jobs jobId } := by
      simp [Queue.removeJob, hgf]
    rw [hstep]
    refine ⟨?_, ?_, ?_, ?_, ?_, ?_, ?_⟩
    · exact h.waiting_nodup.sublist (List.filter_sublist _)
    · intro id hid hcon
      rw [mem_lrem_iff] at hid hcon
      exact h.wa_disjoint id hid.1 hcon.1
    · intro id hid
      rw [mem_lrem_iff] at hid
      rw [hget_hdel_ne _ _ _ hid.2]
      exact h.waiting_in_jobs id hid.1
    · intro id hid
      rw [mem_lrem_iff] at hid
      rw [hget_hdel_ne _ _ _ hid.2]
      exact h.active_in_jobs id hid.1
    · intro id hid hcon
      rw [mem_srem_iff] at hid hcon
      exact h.sf_disjoint id hid.1 hcon.1
    · intro id hid
      have hid' : (id ∈ s.succeeded ∨ id ∈ s.failed) ∧ id ≠ jobId := by
        rcases hid with hh | hh <;> rw [mem_srem_iff] at hh
        · exact ⟨Or.inl hh.1, hh.2⟩
        · exact ⟨Or.inr hh.1, hh.2⟩
      rw [hget_hdel_ne _ _ _ hid'.2]
      exact h.terminal_in_jobs id hid'.1
    · intro id hid
      have hid' : id ∈ s.succeeded ∨ id ∈ s.failed := by
        rcases hid with hh | hh <;> rw [mem_srem_iff] at hh
        · exact Or.inl hh.1
        · exact Or.inr hh.1
      obtain ⟨hw, ha⟩ := h.terminal_not_pending id hid'
      constructor
      · intro hmem
        rw [mem_lrem_iff] at hmem
        exact hw hmem.1
      · intro hmem
        rw [mem_lrem_iff] at hmem
        exact ha hmem.1

/-- Along a run whose completion batches all fire while their job is
still checked out, the invariant is preserved end to end. -/
theorem inv_run_safe (cfg : QueueConfig) :
    ∀ (ops : List Op) (s : QueueState), Inv s → safeRun cfg s ops = true →
      Inv (run cfg s ops) := by
  intro ops
  induction ops with
  | nil => intro s h _; exact h
  | cons op rest ih =>
    intro s h hsafe
    rw [safeRun] at hsafe
    rw [Bool.and_eq_true] at hsafe
    have hstep : Inv (step cfg s op) := by
      cases op with
      | add jobId payload => exact inv_add cfg s h jobId payload
      | dequeue => exact inv_dequeue cfg s h
      | finish j b =>
        have hact : j.id ∈ s.active := of_decide_eq_true hsafe.1
        exact inv_finishJob cfg s h j b hact
      | remove jobId => exact inv_remove cfg s h jobId
    exact ih _ hstep hsafe.2

/-- C5 counterexample: the claimed invariant fails on a genuine
interleaving of the four operations under the default configuration.
Two dispatch iterations hold `"A"` concurrently because a `removeJob`
and a re-admission sit between the first dequeue and its completion:
`add "A"`, dequeue, `removeJob "A"`, `add "A"` again, first completion
(success), second dequeue, second completion (failure).  Each completion
runs `finishJob` on the job its iteration loaded — both loads return
`Job.build "p" "A"`, as the last two conjuncts verify — yet afterwards
`"A"` is a member of `succeeded` and of `failed` at once. -/
theorem reachable_mutual_exclusion_violated :
    sismember (run keepAllConfig emptyState
      [Op.add "A" "p", Op.dequeue, Op.remove "A", Op.add "A" "p",
        Op.finish (Job.build "p" "A") false, Op.dequeue,
        Op.finish (Job.build "p" "A") true]).succeeded "A" = true ∧
    sismember (run keepAllConfig emptyState
      [Op.add "A" "p", Op.dequeue, Op.remove "A", Op.add "A" "p",
        Op.finish (Job.build "p" "A") false, Op.dequeue,
        Op.finish (Job.build "p" "A") true]).failed "A" = true ∧
    Job.fromId (run keepAllConfig emptyState
      [Op.add "A" "p", Op.dequeue]) "A" = some (Job.build "p" "A") ∧
    Job.fromId (run keepAllConfig emptyState
      [Op.add "A" "p", Op.dequeue, Op.remove "A", Op.add "A" "p",
        Op.finish (Job.build "p" "A") false, Op.dequeue]) "A" =
      some (Job.build "p" "A") := by
  decide

/-- C5 amended: in every state reachable from the empty queue by a
sequence of admissions, dequeues, completions and removals in which each
completion batch executes while its job's id is still in `active` (as
holds whenever `removeJob` is not applied to an in-flight job between its
dequeue and its completion), no id is in both `waiting` and `active`, and
no id is in both `succeeded` and `failed`. -/
theorem reachable_mutual_exclusion_safe (cfg : QueueConfig) (ops : List Op)
    (jobId : String) (hsafe : safeRun cfg emptyState ops = true) :
    (decide (jobId ∈ (run cfg emptyState ops).waiting) &&
      decide (jobId ∈ (run cfg emptyState ops).active)) = false ∧
    (decide (jobId ∈ (run cfg emptyState ops).succeeded) &&
      decide (jobId ∈ (run cfg emptyState ops).failed)) = false := by
  have hinv := inv_run_safe cfg ops emptyState Inv.empty hsafe
  constructor
  · by_cases hw : jobId ∈ (run cfg emptyState ops).waiting
    · simp [hw, hinv.wa_disjoint jobId hw]
    · simp [hw]
  · by_cases hs : jobId ∈ (run cfg emptyState ops).succeeded
    · simp [hs, hinv.sf_disjoint jobId hs]
    · simp [hs]

/-- Witness for C5's amended statement: a safe run exercising all four
operations (its completion fires while `"a"` is in `active`), after which
`"a"` is in none of the exclusive pairs simultaneously. -/
theorem reachable_mutual_exclusion_safe_witness :
    (decide ("a" ∈ (run keepAllConfig emptyState
        [Op.add "a" "1", Op.dequeue, Op.finish (Job.build "1" "a") false,
          Op.add "b" "2", Op.remove "b"]).waiting) &&
      decide ("a" ∈ (run keepAllConfig emptyState
        [Op.add "a" "1", Op.dequeue, Op.finish (Job.build "1" "a") false,
          Op.add "b" "2", Op.remove "b"]).active)) = false ∧
    (decide ("a" ∈ (run keepAllConfig emptyState
        [Op.add "a" "1", Op.dequeue, Op.finish (Job.build "1" "a") false,
          Op.add "b" "2", Op.remove "b"]).succeeded) &&
      decide ("a" ∈ (run keepAllConfig emptyState
        [Op.add "a" "1", Op.dequeue, Op.finish (Job.build "1" "a") false,
          Op.add "b" "2", Op.remove "b"]).failed)) = false :=
  reachable_mutual_exclusion_safe keepAllConfig
    [Op.add "a" "1", Op.dequeue, Op.finish (Job.build "1" "a") false,
      Op.add "b" "2", Op.remove "b"] "a" (by decide)

end MQ
